import Mathlib

/-!
Shallow embedding of the deployment engine of `clim` (src/src/game.rs), a
mod manager for games.  Paths are lists of components, the filesystem is a
finite association list from absolute file paths to file contents, and the
ordered mod registry (an `IndexMap` in the source) is an association list
whose order is the load order.  External collaborators — the `7z`
extraction subprocess and the interactive `fomod::pseudo_fomod` part
selection — are oracle parameters of the model.  Side effects that the
claims reason about (tool invocations, file removals, link creations, the
plugin-list write) are recorded in an event log carried through the state.
-/

namespace Clim

/-- A filesystem path, as its list of components (`PathBuf` in the source). -/
abbrev FsPath := List String

/-- File contents; also used as an opaque identifier of which mod a file
came from. -/
abbrev Content := String

/-- The filesystem: a finite map from absolute file paths to contents,
represented as an association list.  List order models directory-walk
traversal order (`WalkDir` in the source).  Directories are implicit:
a directory exists iff some file lies strictly under it. -/
abbrev Disk := List (FsPath × Content)

/-- `pathdiff::diff_paths(path, top)`: the path of `path` relative to
`top`.  Every call site in game.rs applies it to entries walked from
under `top`, so only the descendant case is needed; other cases
(`../`-relative results in Rust) yield `none` here. -/
def diff_paths (path top : FsPath) : Option FsPath :=
  if top.isPrefixOf path then some (path.drop top.length) else none

/-- Look up the content of the file at `p`, if present. -/
def Disk.lookup (d : Disk) (p : FsPath) : Option Content :=
  (d.find? (fun e => e.1 == p)).map (·.2)

/-- All files strictly under directory `root`, in traversal order. -/
def filesUnder (d : Disk) (root : FsPath) : List (FsPath × Content) :=
  d.filter (fun e => root.isPrefixOf e.1 && decide (root.length < e.1.length))

/-- Whether the directory `root` exists on disk (some file lies under it).
Used to model `fs::read_dir` failing with an IO error on a missing
directory. -/
def dirExists (d : Disk) (root : FsPath) : Bool :=
  !(filesUnder d root).isEmpty

/-- Deduplication keeping the first occurrence, used to model the set of
entries `fs::read_dir` reports. -/
def dedupFirstAux : List FsPath → List FsPath → List FsPath
  | [], _ => []
  | x :: xs, seen =>
    if seen.contains x then dedupFirstAux xs seen
    else x :: dedupFirstAux xs (x :: seen)

def dedupFirst (l : List FsPath) : List FsPath :=
  dedupFirstAux l []

/-- `fs::read_dir(root)`: the paths of the immediate child entries of
`root` (files directly inside it, and one entry per direct
subdirectory). -/
def readDirEntries (d : Disk) (root : FsPath) : List FsPath :=
  dedupFirst ((filesUnder d root).map
    (fun e => root ++ [(e.1.get? root.length).getD ""]))

/-- `entry.path().is_dir()` for a read_dir entry. -/
def isDirEntry (d : Disk) (p : FsPath) : Bool :=
  !(filesUnder d p).isEmpty

/-- The errors of src/src/error.rs that the modelled code paths can
produce. -/
inductive Error
  | ioErr
  | UnknownMod (name : String)
  | SelfRelativeMove (name : String)
  | Extraction (archive : FsPath) (code : Option Int)
  deriving Repr, DecidableEq

/-- One managed mod (struct `ManagedMod` in game.rs). -/
structure ManagedMod where
  enabled : Bool := false
  extracted : Option FsPath := none
  archive : FsPath := []
  parts : List FsPath := []
  deriving Repr, DecidableEq

/-- `ManagedMod::part_paths`: the recorded parts, or the whole extracted
tree when no parts are recorded, or nothing when never extracted. -/
def ManagedMod.part_paths (mm : ManagedMod) : List FsPath :=
  if mm.parts.isEmpty then
    match mm.extracted with
    | some extr => [extr]
    | none => []
  else
    mm.parts

inductive DeploymentMethod
  | Hardlink
  | Symlink
  deriving Repr, DecidableEq

/-- The per-game configuration (struct `Config` in game.rs).  `mods` is
the ordered registry: association-list order is load order, keys are the
mod names. -/
structure Config where
  game_folder : FsPath
  data_folder : Option FsPath := none
  plugins_file : Option FsPath := none
  deployment : DeploymentMethod := .Hardlink
  mods : List (String × ManagedMod) := []
  deriving Repr, DecidableEq

/-- `install_dir`: the destination root = game_folder/data_folder when a
data folder is configured and the mod part does not itself contain one,
else game_folder. -/
def install_dir (game_folder : FsPath) (data_folder : Option FsPath)
    (mod_has_data_folder : Bool) : FsPath :=
  match data_folder, mod_has_data_folder with
  | some data, false => game_folder ++ data
  | _, _ => game_folder

/-- Rust's `str::to_lowercase`, per character. -/
def strToLower (s : String) : String :=
  String.mk (s.toList.map Char.toLower)

/-- Contiguous-sublist containment on character lists. -/
def charsContain (hay needle : List Char) : Bool :=
  match hay with
  | [] => needle.isEmpty
  | _ :: t => needle.isPrefixOf hay || charsContain t needle

/-- Rust's `str::contains`: substring containment. -/
def strContainsSub (hay needle : String) : Bool :=
  charsContain hay.toList needle.toList

/-- `get_mod`: resolve a mod selector by case-insensitive substring match
against the registry keys, returning the first matching entry, or an
unknown-mod error (carrying the lowercased selector) when nothing
matches. -/
def get_mod (mods : List (String × ManagedMod)) (name : String) :
    Except Error (String × ManagedMod) :=
  let lname := strToLower name
  match mods.find? (fun e => strContainsSub (strToLower e.1) lname) with
  | some e => .ok e
  | none => .error (.UnknownMod lname)

/-- The move destinations handled by `Game::move_mod` (enum
`MoveSubcommand` in app.rs; game.rs matches exactly these four). -/
inductive MoveSubcommand
  | Above (name : String)
  | Below (name : String)
  | Top
  | Bottom
  deriving Repr, DecidableEq

/-- `IndexMap::shift_remove(name)`: remove the entry with that exact key,
shifting the rest down in order.  Registry keys are unique, so removing
every entry with the key models it. -/
def shift_remove (mods : List (String × ManagedMod)) (name : String) :
    List (String × ManagedMod) :=
  mods.filter (fun e => e.1 != name)

/-- The body of the `relative!` macro of `Game::move_mod`: given the
already-resolved canonical names, remove the moved entry, find the other
entry's index in the remainder, and reinsert the moved entry at that
index plus `add` (0 for Above, 1 for Below).  The `none` fallbacks are
unreachable (`.unwrap()` in the source): both names come from successful
`get_mod` calls on this registry. -/
def relativeMove (mods : List (String × ManagedMod))
    (moved_name other_name : String) (add : Nat) :
    List (String × ManagedMod) :=
  match mods.find? (fun e => e.1 == moved_name) with
  | none => mods
  | some movedEntry =>
    let rest := shift_remove mods moved_name
    match rest.findIdx? (fun e => e.1 == other_name) with
    | none => rest
    | some other_index =>
      rest.take (other_index + add) ++ [movedEntry]
        ++ rest.drop (other_index + add)

/-- `Game::move_mod`: reorder the registry.  Returns the (possibly
unchanged) registry together with the error, if any; every error is
raised before any mutation, so the registry component equals the input on
the error paths, exactly as in the source. -/
def move_mod (mods : List (String × ManagedMod)) (moved : String)
    (dest : MoveSubcommand) : List (String × ManagedMod) × Option Error :=
  match get_mod mods moved with
  | .error e => (mods, some e)
  | .ok movedRes =>
    let moved_name := movedRes.1
    match dest with
    | .Above other =>
      match get_mod mods other with
      | .error e => (mods, some e)
      | .ok otherRes =>
        if moved_name == otherRes.1 then
          (mods, some (.SelfRelativeMove moved_name))
        else
          (relativeMove mods moved_name otherRes.1 0, none)
    | .Below other =>
      match get_mod mods other with
      | .error e => (mods, some e)
      | .ok otherRes =>
        if moved_name == otherRes.1 then
          (mods, some (.SelfRelativeMove moved_name))
        else
          (relativeMove mods moved_name otherRes.1 1, none)
    | .Top =>
      match mods.find? (fun e => e.1 == moved_name) with
      | none => (mods, none)
      | some movedEntry =>
        (movedEntry :: shift_remove mods moved_name, none)
    | .Bottom =>
      match mods.find? (fun e => e.1 == moved_name) with
      | none => (mods, none)
      | some movedEntry =>
        (shift_remove mods moved_name ++ [movedEntry], none)

/-- `contains_data_folder`: when a data folder is configured, read the
directory and test whether some immediate entry's path ends with the data
folder's components; `fs::read_dir` on a missing directory is an IO
error.  Without a configured data folder the answer is `false` with no
directory read. -/
def contains_data_folder (d : Disk) (path : FsPath)
    (data_folder : Option FsPath) : Except Error Bool :=
  match data_folder with
  | some data =>
    if dirExists d path then
      .ok ((readDirEntries d path).any (fun entry => data.isSuffixOf entry))
    else
      .error .ioErr
  | none => .ok false

/-- The side effects a deploy pass performs, in the order the code
performs them. -/
inductive Event
  | invokeTool (modName : String)
  | removeFile (p : FsPath)
  | link (src dst : FsPath)
  | writePluginsFile (target : FsPath) (content : String)
  deriving Repr, DecidableEq

def Event.isInvokeTool : Event → Bool
  | .invokeTool _ => true
  | _ => false

def Event.isRemoveFile : Event → Bool
  | .removeFile _ => true
  | _ => false

def Event.isLink : Event → Bool
  | .link _ _ => true
  | _ => false

def Event.isWritePlugins : Event → Bool
  | .writePluginsFile _ _ => true
  | _ => false

/-- The mutable state a `Game` method runs against: the per-game config,
the filesystem, and the log of performed side effects. -/
structure St where
  config : Config
  disk : Disk
  log : List Event
  deriving Repr, DecidableEq

/-- The external collaborators of a deploy pass.  `sevenZip` models the
`7z x <archive> -o<dir> -spe` subprocess: `some files` (paths relative to
the output directory) on exit code 0, `none` on a non-zero exit whose
code is `exitCode`.  `fomodChoice` models the interactive
`fomod::pseudo_fomod` part selection. -/
structure ExtractEnv where
  sevenZip : String → FsPath → Option (List (FsPath × Content))
  exitCode : Option Int := none
  fomodChoice : String → FsPath → Except Error (List FsPath)

/-- `library::extracted_dir(game, mod)` = `~/.clim/<game>/extracted/<mod>`. -/
def extracted_dir (game modName : String) : FsPath :=
  ["home", ".clim", game, "extracted", modName]

/-- `fs::remove_dir_all(root)`: drop every file under `root`. -/
def remove_dir_all (d : Disk) (root : FsPath) : Disk :=
  d.filter (fun e => !root.isPrefixOf e.1)

/-- The single-wrapper-directory normalization of `Game::extract_mod`: if
the extracted root holds exactly one directory entry and the root does
not contain the data folder, hoist the inner directory's contents up one
level.  The `&&` in the source short-circuits, so `contains_data_folder`
(and its possible IO error) is only reached when the count is 1. -/
def hoistSingleDir (d : Disk) (edir : FsPath) (data_folder : Option FsPath) :
    Except Error Disk :=
  let childDirs := (readDirEntries d edir).filter (isDirEntry d)
  if childDirs.length == 1 then
    match contains_data_folder d edir data_folder with
    | .error e => .error e
    | .ok cdf =>
      if cdf then
        .ok d
      else
        match (readDirEntries d edir).find? (isDirEntry d) with
        | none => .ok d
        | some narrowed =>
          .ok (d.map (fun e =>
            if narrowed.isPrefixOf e.1 then
              (edir ++ e.1.drop narrowed.length, e.2)
            else e))
  else
    .ok d

/-- `utils::capitalize_path` applied to one path component. -/
def capitalizeComponent (s : String) : String :=
  match s.toList with
  | [] => ""
  | c :: rest => String.mk (c.toUpper :: rest)

/-- The unix branch of `Game::extract_mod` that best-effort renames every
directory under the extracted root to a capitalized form; modelled as its
intended net effect: each directory component of a path under `edir` gets
its first character uppercased (file names themselves are not renamed,
only directories are). -/
def capitalizeUnder (d : Disk) (edir : FsPath) : Disk :=
  d.map (fun e =>
    if edir.isPrefixOf e.1 then
      let rel := e.1.drop edir.length
      match rel.getLast? with
      | none => e
      | some fileName =>
        (edir ++ ((rel.dropLast).map capitalizeComponent ++ [fileName]), e.2)
    else e)

/-- `Game::extract_mod`: if the mod is enabled and never extracted,
discard any stale output directory, invoke the external tool (logged),
fail with an extraction error on a non-zero exit, and otherwise write the
extracted tree, apply the single-wrapper hoist and the capitalization
pass, and record `extracted`.  Otherwise a no-op.  Returns the state as
mutated so far even on the error path, as the Rust `?`-return does. -/
def extract_mod (env : ExtractEnv) (game_name : String)
    (data_folder : Option FsPath) (mod_name : String) (mm : ManagedMod)
    (disk : Disk) (log : List Event) :
    (ManagedMod × Disk × List Event) × Option Error :=
  if mm.enabled && mm.extracted.isNone then
    let edir := extracted_dir game_name mod_name
    let disk1 := remove_dir_all disk edir
    let log1 := log ++ [.invokeTool mod_name]
    match env.sevenZip mod_name mm.archive with
    | none =>
      ((mm, disk1, log1), some (.Extraction mm.archive env.exitCode))
    | some files =>
      let disk2 := disk1 ++ files.map (fun f => (edir ++ f.1, f.2))
      match hoistSingleDir disk2 edir data_folder with
      | .error e => ((mm, disk2, log1), some e)
      | .ok disk3 =>
        let disk4 := capitalizeUnder disk3 edir
        (({ mm with extracted := some edir }, disk4, log1), none)
  else
    ((mm, disk, log), none)

/-- The loop of `Game::extract` over the registry, with the `?` early
return: the first extraction error stops the loop, leaving every later
mod untouched. -/
def extractLoop (env : ExtractEnv) (game_name : String)
    (data_folder : Option FsPath) (mods : List (String × ManagedMod))
    (disk : Disk) (log : List Event) :
    (List (String × ManagedMod) × Disk × List Event) × Option Error :=
  match mods with
  | [] => (([], disk, log), none)
  | (n, mm) :: rest =>
    match extract_mod env game_name data_folder n mm disk log with
    | ((mm', d', l'), some e) => (((n, mm') :: rest, d', l'), some e)
    | ((mm', d', l'), none) =>
      match extractLoop env game_name data_folder rest d' l' with
      | ((rest', d'', l''), err) => (((n, mm') :: rest', d'', l''), err)

/-- `Game::extract`, lifted to the whole state (the game name is a
parameter since `St` does not carry it). -/
def Game.extract (env : ExtractEnv) (game_name : String) (st : St) :
    St × Option Error :=
  match extractLoop env game_name st.config.data_folder st.config.mods
      st.disk st.log with
  | ((mods', d', l'), err) =>
    let cfg' := { st.config with mods := mods' }
    ({ config := cfg', disk := d', log := l' }, err)

/-- `utils::remove_path(top, name)`: delete the file `top/name` if
present (then best-effort remove now-empty parent directories, which have
no representation here since directories are implicit). -/
def remove_path (d : Disk) (top rel : FsPath) : Disk :=
  d.filter (fun e => e.1 != top ++ rel)

/-- The per-part body of `Game::undeploy_mod`: a failing
`fs::read_dir` inside `contains_data_folder` skips the part (`continue`);
otherwise walk the part's source tree and remove each file's image under
the install root, logging one removal per walked file.  The walked file
list is the snapshot of the source tree, which removals under the install
root do not touch. -/
def undeployPart (game_folder : FsPath) (data_folder : Option FsPath)
    (install_src : FsPath) (d : Disk) (log : List Event) :
    Disk × List Event :=
  match contains_data_folder d install_src data_folder with
  | .error _ => (d, log)
  | .ok cdf =>
    let idir := install_dir game_folder data_folder cdf
    let rels := (filesUnder d install_src).filterMap
      (fun e => diff_paths e.1 install_src)
    rels.foldl
      (fun acc rel =>
        (remove_path acc.1 idir rel, acc.2 ++ [.removeFile (idir ++ rel)]))
      (d, log)

/-- `Game::undeploy_mod`: undeploy every recorded part. -/
def undeploy_mod (game_folder : FsPath) (data_folder : Option FsPath)
    (mm : ManagedMod) (d : Disk) (log : List Event) : Disk × List Event :=
  mm.part_paths.foldl
    (fun acc src => undeployPart game_folder data_folder src acc.1 acc.2)
    (d, log)

/-- `Game::undeploy`: undeploy every mod in the registry, enabled or not.
The mods themselves are not modified. -/
def Game.undeploy (st : St) : St :=
  let res := st.config.mods.foldl
    (fun acc e =>
      undeploy_mod st.config.game_folder st.config.data_folder e.2
        acc.1 acc.2)
    (st.disk, st.log)
  { st with disk := res.1, log := res.2 }

/-- The search for a Fomod installer descriptor in `Game::deploy`: the
first file under the extracted tree named `ModuleConfig.xml`. -/
def findModuleConfig (d : Disk) (root : FsPath) : Option FsPath :=
  ((filesUnder d root).find?
    (fun e => e.1.getLast? == some "ModuleConfig.xml")).map (·.1)

/-- The install-folder computation of `Game::deploy` (game.rs lines
385-393): recorded parts when non-empty; else, when an installer
descriptor is present, the external part selection, which is recorded
into `parts`; else the whole extracted tree. -/
def resolve_install_folders (env : ExtractEnv) (d : Disk)
    (mod_name : String) (mm : ManagedMod) (edir : FsPath) :
    Except Error (List FsPath × ManagedMod) :=
  if !mm.parts.isEmpty then
    .ok (mm.parts, mm)
  else if (findModuleConfig d edir).isSome then
    match env.fomodChoice mod_name edir with
    | .error e => .error e
    | .ok paths => .ok (paths, { mm with parts := paths })
  else
    .ok ([edir], mm)

/-- `fs::hard_link(src, dst)` (and the unix `symlink` used for the
Symlink method) with its error swallowed by `let _ =`: creating a link at
an already-existing destination fails, so the destination keeps its old
content; otherwise the destination becomes a link to `src`'s content. -/
def hard_link (d : Disk) (src dst : FsPath) : Disk :=
  if (d.lookup dst).isSome then d
  else
    match d.lookup src with
    | some c => d ++ [(dst, c)]
    | none => d

/-- The per-folder install loop of `Game::deploy`: resolve the install
root (a failing `fs::read_dir` in `contains_data_folder` here propagates
with `?`), then walk the part's files and attempt a link for each, with
creation failures swallowed.  Both deployment methods create links with
the same existing-destination failure semantics. -/
def deployPart (game_folder : FsPath) (data_folder : Option FsPath)
    (method : DeploymentMethod) (install_src : FsPath) (d : Disk)
    (log : List Event) : (Disk × List Event) × Option Error :=
  match contains_data_folder d install_src data_folder with
  | .error e => ((d, log), some e)
  | .ok cdf =>
    let idir := install_dir game_folder data_folder cdf
    let rels := (filesUnder d install_src).filterMap
      (fun e => diff_paths e.1 install_src)
    let res := rels.foldl
      (fun acc rel =>
        let src := install_src ++ rel
        let dst := idir ++ rel
        let d' :=
          match method with
          | .Hardlink => hard_link acc.1 src dst
          | .Symlink => hard_link acc.1 src dst
        (d', acc.2 ++ [.link src dst]))
      (d, log)
    (res, none)

/-- The loop of `Game::deploy` over one mod's install folders, with the
`?` early return. -/
def deployPartsLoop (game_folder : FsPath) (data_folder : Option FsPath)
    (method : DeploymentMethod) (folders : List FsPath) (d : Disk)
    (log : List Event) : (Disk × List Event) × Option Error :=
  match folders with
  | [] => ((d, log), none)
  | src :: rest =>
    match deployPart game_folder data_folder method src d log with
    | (acc, some e) => (acc, some e)
    | ((d', l'), none) =>
      deployPartsLoop game_folder data_folder method rest d' l'

/-- The per-mod body of `Game::deploy`: skip mods that are disabled or
never extracted; otherwise resolve the install folders and install each. -/
def deployModEntry (env : ExtractEnv) (game_folder : FsPath)
    (data_folder : Option FsPath) (method : DeploymentMethod)
    (mod_name : String) (mm : ManagedMod) (d : Disk) (log : List Event) :
    (ManagedMod × Disk × List Event) × Option Error :=
  match mm.extracted, mm.enabled with
  | some edir, true =>
    match resolve_install_folders env d mod_name mm edir with
    | .error e => ((mm, d, log), some e)
    | .ok folders_mm =>
      match deployPartsLoop game_folder data_folder method folders_mm.1
          d log with
      | (acc, err) => ((folders_mm.2, acc.1, acc.2), err)
  | _, _ => ((mm, d, log), none)

/-- The loop of `Game::deploy` over the registry, with the `?` early
return. -/
def deployLoop (env : ExtractEnv) (game_folder : FsPath)
    (data_folder : Option FsPath) (method : DeploymentMethod)
    (mods : List (String × ManagedMod)) (d : Disk) (log : List Event) :
    (List (String × ManagedMod) × Disk × List Event) × Option Error :=
  match mods with
  | [] => (([], d, log), none)
  | (n, mm) :: rest =>
    match deployModEntry env game_folder data_folder method n mm d log with
    | ((mm', d', l'), some e) => (((n, mm') :: rest, d', l'), some e)
    | ((mm', d', l'), none) =>
      match deployLoop env game_folder data_folder method rest d' l' with
      | ((rest', d'', l''), err) => (((n, mm') :: rest', d'', l''), err)

/-- `Game::deploy`, lifted to the whole state. -/
def Game.deploy (env : ExtractEnv) (st : St) : St × Option Error :=
  match deployLoop env st.config.game_folder st.config.data_folder
      st.config.deployment st.config.mods st.disk st.log with
  | ((mods', d', l'), err) =>
    let cfg' := { st.config with mods := mods' }
    ({ config := cfg', disk := d', log := l' }, err)

/-- The characters after the last `.` of a file name's character list. -/
def extAfterLastDot : List Char → Option (List Char)
  | [] => none
  | c :: rest =>
    match extAfterLastDot rest with
    | some e => some e
    | none => if c == '.' then some rest else none

/-- Rust's `Path::extension` on a file name: the portion after the last
dot, where a leading dot opens the stem rather than an extension. -/
def extOfName (name : String) : Option String :=
  match name.toList with
  | [] => none
  | c :: rest =>
    let search := if c == '.' then rest else c :: rest
    (extAfterLastDot search).map String.mk

def pluginExtensions : List String := ["esp", "esm", "esl"]

/-- The plugin scan of one mod in `Game::plugins`: walk every part path
and keep the file names bearing a recognized plugin extension. -/
def pluginsOfMod (d : Disk) (mm : ManagedMod) : List String :=
  (mm.part_paths.flatMap (fun p => filesUnder d p)).filterMap (fun e =>
    match e.1.getLast? with
    | none => none
    | some name =>
      match extOfName name with
      | some ext =>
        if pluginExtensions.contains ext then some name else none
      | none => none)

/-- itertools' `dedup`: collapse runs of consecutive equal elements to
their first element.  Non-adjacent duplicates are kept. -/
def dedupConsecutive : List String → List String
  | [] => []
  | [a] => [a]
  | a :: b :: rest =>
    if a == b then dedupConsecutive (b :: rest)
    else a :: dedupConsecutive (b :: rest)

/-- `Game::plugins`: the plugin file names contributed by enabled mods in
registry order, with consecutive duplicates collapsed. -/
def Game.plugins (cfg : Config) (d : Disk) : List String :=
  dedupConsecutive
    (((cfg.mods.map Prod.snd).filter (·.enabled)).flatMap (pluginsOfMod d))

/-- `File::create` + writes: replace (or create) the file at `p` with
`content`. -/
def writeFile (d : Disk) (p : FsPath) (content : Content) : Disk :=
  d.filter (fun e => e.1 != p) ++ [(p, content)]

/-- `Game::write_plugins`: no-op without a configured plugin-list path;
otherwise write one `*`-prefixed line per plugin name. -/
def Game.write_plugins (st : St) : St :=
  match st.config.plugins_file with
  | none => st
  | some target =>
    let content := String.join
      ((Game.plugins st.config st.disk).map (fun n => "*" ++ n ++ "\n"))
    { st with disk := writeFile st.disk target content,
              log := st.log ++ [.writePluginsFile target content] }

/-- `Game::go`: one deploy pass — extract, then undeploy, then install,
then the plugin-list write, each `?` aborting the rest of the pass. -/
def Game.go (env : ExtractEnv) (game_name : String) (st : St) :
    St × Option Error :=
  match Game.extract env game_name st with
  | (st1, some e) => (st1, some e)
  | (st1, none) =>
    let st2 := Game.undeploy st1
    match Game.deploy env st2 with
    | (st3, some e) => (st3, some e)
    | (st3, none) => (Game.write_plugins st3, none)

/-! ## Concrete scenario data for witnesses and counterexamples -/

def stickyMod : ManagedMod :=
  { enabled := true, extracted := some ["e"], archive := [],
    parts := [["e", "sub"]] }

def envNoTool : ExtractEnv :=
  { sevenZip := fun _ _ => none, fomodChoice := fun _ _ => .error .ioErr }

def stSticky : St :=
  { config := { game_folder := ["game"], mods := [("A", stickyMod)] },
    disk := [], log := [] }

def p0 : FsPath := ["Textures", "foo.dds"]

def exX : FsPath := ["srcX"]

def exY : FsPath := ["srcY"]

def modX : ManagedMod := { enabled := true, extracted := some exX }

def modY : ManagedMod := { enabled := true, extracted := some exY }

def cfgXY : Config :=
  { game_folder := ["game"], mods := [("X", modX), ("Y", modY)] }

def cfgXYP : Config := { cfgXY with plugins_file := some ["plugins.txt"] }

/-- X's tree holds foo.esp; Y's traversal yields bar.esp before its
duplicate foo.esp, so the duplicates are separated. -/
def diskSep : Disk :=
  [(exX ++ ["foo.esp"], "x"), (exY ++ ["bar.esp"], "y1"),
   (exY ++ ["sub", "foo.esp"], "y2")]

/-- Y's traversal yields its duplicate foo.esp first, adjacent to X's. -/
def diskAdj : Disk :=
  [(exX ++ ["foo.esp"], "x"), (exY ++ ["foo.esp"], "y2"),
   (exY ++ ["bar.esp"], "y1")]

def stSep : St := { config := cfgXYP, disk := diskSep, log := [] }

def stAdj : St := { config := cfgXYP, disk := diskAdj, log := [] }

/-- Mods X then Y both produce the file `p0`, with contents `a` and `b`
respectively. -/
def stCollision (a b : Content) : St :=
  { config := cfgXY, disk := [(exX ++ p0, a), (exY ++ p0, b)], log := [] }

def stPre : St :=
  { config := cfgXY, disk := [(["game", "pre.txt"], "keep")], log := [] }

def modNew1 : ManagedMod := { enabled := true, archive := ["arch", "m1.7z"] }

def modNew2 : ManagedMod := { enabled := true, archive := ["arch", "m2.7z"] }

def cfgM : Config :=
  { game_folder := ["game"], mods := [("M1", modNew1), ("M2", modNew2)] }

def stM : St := { config := cfgM, disk := [], log := [] }

def stMfailed : St :=
  { config := cfgM, disk := [], log := [.invokeTool "M1"] }

/-- Extraction fails (exit code 2) for mod M1 and would succeed for any
other mod. -/
def envFail1 : ExtractEnv :=
  { sevenZip := fun n _ => if n == "M1" then none else some [(["f.esp"], "m2")],
    exitCode := some 2,
    fomodChoice := fun _ _ => .error .ioErr }

/-- Extraction succeeds for every mod, producing a single b.esp file. -/
def envOkB : ExtractEnv :=
  { sevenZip := fun _ _ => some [(["b.esp"], "bcontent")],
    fomodChoice := fun _ _ => .error .ioErr }

def modAx : ManagedMod := { enabled := true, extracted := some exX }

def modBn : ManagedMod := { enabled := true, archive := ["arch", "b.7z"] }

/-- Mod A is already extracted with one deployed-to-be file; mod B still
needs extraction; a plugin list target is configured. -/
def cfgAB : Config :=
  { game_folder := ["game"], plugins_file := some ["plugins.txt"],
    mods := [("A", modAx), ("B", modBn)] }

def stAB : St :=
  { config := cfgAB, disk := [(exX ++ ["a.esp"], "acontent")], log := [] }

/-! ## Shared lemmas -/

theorem get_mod_mem {mods : List (String × ManagedMod)} {name : String}
    {e : String × ManagedMod} (h : get_mod mods name = .ok e) : e ∈ mods := by
  unfold get_mod at h
  cases hf : mods.find?
      (fun x => strContainsSub (strToLower x.1) (strToLower name)) with
  | none => simp [hf] at h
  | some x =>
    simp only [hf, Except.ok.injEq] at h
    exact h ▸ List.mem_of_find?_eq_some hf

theorem find?_key_of_nodup {mods : List (String × ManagedMod)}
    {e : String × ManagedMod} (hnd : (mods.map Prod.fst).Nodup)
    (hmem : e ∈ mods) : mods.find? (fun x => x.1 == e.1) = some e := by
  induction mods with
  | nil => cases hmem
  | cons a rest ih =>
    rcases List.mem_cons.mp hmem with rfl | hmem'
    · exact List.find?_cons_of_pos _ (by simp)
    · simp only [List.map_cons, List.nodup_cons] at hnd
      have hne : a.1 ≠ e.1 := by
        intro hcontr
        exact hnd.1 (hcontr ▸ List.mem_map_of_mem Prod.fst hmem')
      rw [List.find?_cons_of_neg _ (by simp [hne]), ih hnd.2 hmem']

theorem findIdx?_key_of_nodup {l : List (String × ManagedMod)}
    {e : String × ManagedMod} (hnd : (l.map Prod.fst).Nodup) (hmem : e ∈ l) :
    ∃ j, l.findIdx? (fun x => x.1 == e.1) = some j ∧ l.get? j = some e := by
  induction l with
  | nil => cases hmem
  | cons a rest ih =>
    rcases List.mem_cons.mp hmem with rfl | hmem'
    · exact ⟨0, by simp [List.findIdx?_cons], rfl⟩
    · simp only [List.map_cons, List.nodup_cons] at hnd
      have hne : a.1 ≠ e.1 := by
        intro hcontr
        exact hnd.1 (hcontr ▸ List.mem_map_of_mem Prod.fst hmem')
      obtain ⟨j, hj, hget⟩ := ih hnd.2 hmem'
      refine ⟨j + 1, ?_, hget⟩
      simp [List.findIdx?_cons, hne, hj]

theorem nodup_keys_shift_remove {mods : List (String × ManagedMod)}
    (hnd : (mods.map Prod.fst).Nodup) (n : String) :
    ((shift_remove mods n).map Prod.fst).Nodup := by
  unfold shift_remove
  exact List.Nodup.sublist ((List.filter_sublist _).map Prod.fst) hnd

theorem mem_shift_remove {mods : List (String × ManagedMod)}
    {e : String × ManagedMod} (hmem : e ∈ mods) {n : String}
    (hne : e.1 ≠ n) : e ∈ shift_remove mods n := by
  unfold shift_remove
  rw [List.mem_filter]
  exact ⟨hmem, by simp [hne]⟩

theorem relativeMove_eq {mods : List (String × ManagedMod)}
    {me oe : String × ManagedMod} (hnd : (mods.map Prod.fst).Nodup)
    (hme : me ∈ mods) (hoe : oe ∈ mods) (hne : me.1 ≠ oe.1) (add : Nat) :
    ∃ j, (shift_remove mods me.1).findIdx? (fun x => x.1 == oe.1) = some j ∧
      (shift_remove mods me.1).get? j = some oe ∧
      relativeMove mods me.1 oe.1 add =
        (shift_remove mods me.1).take (j + add) ++ me ::
          (shift_remove mods me.1).drop (j + add) := by
  have hoe' : oe ∈ shift_remove mods me.1 :=
    mem_shift_remove hoe (fun hc => hne hc.symm)
  obtain ⟨j, hj, hget⟩ :=
    findIdx?_key_of_nodup (nodup_keys_shift_remove hnd me.1) hoe'
  refine ⟨j, hj, hget, ?_⟩
  unfold relativeMove
  rw [find?_key_of_nodup hnd hme]
  simp only [hj]
  simp

theorem move_sem_top
    {mods : List (String × ManagedMod)} {moved : String}
    {me : String × ManagedMod} (hnd : (mods.map Prod.fst).Nodup)
    (hm : get_mod mods moved = .ok me) :
    move_mod mods moved .Top = (me :: shift_remove mods me.1, none)
    ∧ move_mod mods moved .Bottom
        = (shift_remove mods me.1 ++ [me], none) := by
  have hmem := get_mod_mem hm
  constructor <;>
  · unfold move_mod
    rw [hm]
    simp only [find?_key_of_nodup hnd hmem]

theorem move_sem_rel
    {mods : List (String × ManagedMod)} {moved other : String}
    {me oe : String × ManagedMod} (hnd : (mods.map Prod.fst).Nodup)
    (hm : get_mod mods moved = .ok me) (ho : get_mod mods other = .ok oe)
    (hne : me.1 ≠ oe.1) :
    ∃ j, (shift_remove mods me.1).findIdx? (fun x => x.1 == oe.1) = some j ∧
      (shift_remove mods me.1).get? j = some oe ∧
      move_mod mods moved (.Above other)
        = ((shift_remove mods me.1).take j ++ me ::
            (shift_remove mods me.1).drop j, none) ∧
      move_mod mods moved (.Below other)
        = ((shift_remove mods me.1).take (j + 1) ++ me ::
            (shift_remove mods me.1).drop (j + 1), none) := by
  obtain ⟨j, hj, hget, heq0⟩ :=
    relativeMove_eq hnd (get_mod_mem hm) (get_mod_mem ho) hne 0
  obtain ⟨j2, hj2, hget2, heq1⟩ :=
    relativeMove_eq hnd (get_mod_mem hm) (get_mod_mem ho) hne 1
  have hjj : j2 = j := Option.some.inj (hj2.symm.trans hj)
  subst hjj
  refine ⟨j2, hj, hget, ?_, ?_⟩
  · unfold move_mod
    rw [hm]
    simp only [ho, beq_eq_false_iff_ne.mpr hne, Bool.false_eq_true, if_false,
      heq0, Nat.add_zero]
  · unfold move_mod
    rw [hm]
    simp only [ho, beq_eq_false_iff_ne.mpr hne, Bool.false_eq_true, if_false,
      heq1]

theorem lookup_append_left {d : Disk} {p : FsPath} {c : Content}
    (h : Disk.lookup d p = some c) (d2 : Disk) :
    Disk.lookup (d ++ d2) p = some c := by
  unfold Disk.lookup at h ⊢
  cases hf : d.find? (fun e => e.1 == p) with
  | none => rw [hf] at h; cases h
  | some en =>
    rw [hf] at h
    rw [List.find?_append, hf]
    simpa using h

theorem hard_link_preserves {d : Disk} {p : FsPath} {c : Content}
    (h : Disk.lookup d p = some c) (src dst : FsPath) :
    Disk.lookup (hard_link d src dst) p = some c := by
  unfold hard_link
  by_cases hd : (Disk.lookup d dst).isSome = true
  · simp [hd, h]
  · simp only [Bool.not_eq_true] at hd
    simp only [hd]
    cases hs : Disk.lookup d src with
    | none => simpa using h
    | some c2 =>
      simp only [Bool.false_eq_true, if_false]
      exact lookup_append_left h _

theorem linkFold_preserves (method : DeploymentMethod)
    (install_src idir : FsPath) :
    ∀ (rels : List FsPath) (d : Disk) (l : List Event) (p : FsPath)
      (c : Content), Disk.lookup d p = some c →
      Disk.lookup
        (rels.foldl
          (fun acc rel =>
            let src := install_src ++ rel
            let dst := idir ++ rel
            let d2 :=
              match method with
              | .Hardlink => hard_link acc.1 src dst
              | .Symlink => hard_link acc.1 src dst
            (d2, acc.2 ++ [.link src dst]))
          (d, l)).1 p = some c := by
  intro rels
  induction rels with
  | nil => intro d l p c h; exact h
  | cons r rs ih =>
    intro d l p c h
    rw [List.foldl_cons]
    cases method <;> exact ih _ _ p c (hard_link_preserves h _ _)

theorem deployPart_preserves (gf : FsPath) (df : Option FsPath)
    (method : DeploymentMethod) (src : FsPath) (d : Disk) (l : List Event)
    (p : FsPath) (c : Content) (h : Disk.lookup d p = some c) :
    Disk.lookup (deployPart gf df method src d l).1.1 p = some c := by
  cases hc : contains_data_folder d src df with
  | error e => simp only [deployPart, hc]; exact h
  | ok cdf =>
    simp only [deployPart, hc]
    exact linkFold_preserves method src _ _ d l p c h

theorem deployPartsLoop_preserves (gf : FsPath) (df : Option FsPath)
    (method : DeploymentMethod) :
    ∀ (folders : List FsPath) (d : Disk) (l : List Event) (p : FsPath)
      (c : Content), Disk.lookup d p = some c →
      Disk.lookup (deployPartsLoop gf df method folders d l).1.1 p
        = some c := by
  intro folders
  induction folders with
  | nil => intro d l p c h; exact h
  | cons f fs ih =>
    intro d l p c h
    cases hdp : deployPart gf df method f d l with
    | mk acc err =>
      obtain ⟨d2, l2⟩ := acc
      have hp := deployPart_preserves gf df method f d l p c h
      rw [hdp] at hp
      cases err with
      | some e => simp only [deployPartsLoop, hdp]; exact hp
      | none => simp only [deployPartsLoop, hdp]; exact ih d2 l2 p c hp

theorem deployModEntry_preserves_disk (env : ExtractEnv) (gf : FsPath)
    (df : Option FsPath) (method : DeploymentMethod) (n : String)
    (mm : ManagedMod) (d : Disk) (l : List Event) (p : FsPath) (c : Content)
    (h : Disk.lookup d p = some c) :
    Disk.lookup (deployModEntry env gf df method n mm d l).1.2.1 p
      = some c := by
  cases he : mm.extracted with
  | none => simp only [deployModEntry, he]; exact h
  | some edir =>
    cases hen : mm.enabled with
    | false => simp only [deployModEntry, he, hen]; exact h
    | true =>
      cases hres : resolve_install_folders env d n mm edir with
      | error e => simp only [deployModEntry, he, hen, hres]; exact h
      | ok fm =>
        cases hdl : deployPartsLoop gf df method fm.1 d l with
        | mk acc err =>
          simp only [deployModEntry, he, hen, hres, hdl]
          have hp := deployPartsLoop_preserves gf df method fm.1 d l p c h
          rw [hdl] at hp
          exact hp

theorem deployLoop_preserves_disk (env : ExtractEnv) (gf : FsPath)
    (df : Option FsPath) (method : DeploymentMethod) :
    ∀ (mods : List (String × ManagedMod)) (d : Disk) (l : List Event)
      (p : FsPath) (c : Content), Disk.lookup d p = some c →
      Disk.lookup (deployLoop env gf df method mods d l).1.2.1 p
        = some c := by
  intro mods
  induction mods with
  | nil => intro d l p c h; exact h
  | cons a rest ih =>
    intro d l p c h
    cases hde : deployModEntry env gf df method a.1 a.2 d l with
    | mk trip err =>
      obtain ⟨mm2, d2, l2⟩ := trip
      have hp := deployModEntry_preserves_disk env gf df method a.1 a.2
        d l p c h
      rw [hde] at hp
      cases err with
      | some e => simp only [deployLoop, hde]; exact hp
      | none =>
        cases hrec : deployLoop env gf df method rest d2 l2 with
        | mk trip2 err2 =>
          obtain ⟨rest2, d3, l3⟩ := trip2
          simp only [deployLoop, hde, hrec]
          have hq := ih d2 l2 p c hp
          rw [hrec] at hq
          exact hq

theorem deploy_preserves_disk (env : ExtractEnv) (st : St) (p : FsPath)
    (c : Content) (h : Disk.lookup st.disk p = some c) :
    Disk.lookup ((Game.deploy env st).1).disk p = some c := by
  cases hrec : deployLoop env st.config.game_folder st.config.data_folder
      st.config.deployment st.config.mods st.disk st.log with
  | mk trip err =>
    obtain ⟨mods2, d2, l2⟩ := trip
    simp only [Game.deploy, hrec]
    have hp := deployLoop_preserves_disk env st.config.game_folder
      st.config.data_folder st.config.deployment st.config.mods st.disk
      st.log p c h
    rw [hrec] at hp
    exact hp

theorem extract_mod_log (env : ExtractEnv) (gn : String)
    (df : Option FsPath) (n : String) (mm : ManagedMod) (d : Disk)
    (l : List Event) :
    ∃ l2, (extract_mod env gn df n mm d l).1.2.2 = l ++ l2
      ∧ l2.all Event.isInvokeTool = true := by
  by_cases hg : (mm.enabled && mm.extracted.isNone) = true
  · cases hz : env.sevenZip n mm.archive with
    | none =>
      exact ⟨[.invokeTool n], by simp [extract_mod, hg, hz], rfl⟩
    | some files =>
      cases hh : hoistSingleDir
          (remove_dir_all d (extracted_dir gn n)
            ++ files.map (fun f => (extracted_dir gn n ++ f.1, f.2)))
          (extracted_dir gn n) df with
      | error e =>
        exact ⟨[.invokeTool n], by simp [extract_mod, hg, hz, hh], rfl⟩
      | ok d3 =>
        exact ⟨[.invokeTool n], by simp [extract_mod, hg, hz, hh], rfl⟩
  · exact ⟨[], by simp [extract_mod, hg], rfl⟩

theorem extractLoop_log (env : ExtractEnv) (gn : String)
    (df : Option FsPath) :
    ∀ (mods : List (String × ManagedMod)) (d : Disk) (l : List Event),
    ∃ l2, (extractLoop env gn df mods d l).1.2.2 = l ++ l2
      ∧ l2.all Event.isInvokeTool = true := by
  intro mods
  induction mods with
  | nil => intro d l; exact ⟨[], by simp [extractLoop], rfl⟩
  | cons a rest ih =>
    intro d l
    obtain ⟨l2a, h2a, ha⟩ := extract_mod_log env gn df a.1 a.2 d l
    cases hem : extract_mod env gn df a.1 a.2 d l with
    | mk trip err =>
      obtain ⟨mm2, d2, l2⟩ := trip
      rw [hem] at h2a
      simp only at h2a
      cases err with
      | some e =>
        refine ⟨l2a, ?_, ha⟩
        simp [extractLoop, hem, h2a]
      | none =>
        obtain ⟨l2b, h2b, hb⟩ := ih d2 l2
        cases hrec : extractLoop env gn df rest d2 l2 with
        | mk trip2 err2 =>
          obtain ⟨rest2, d3, l3⟩ := trip2
          rw [hrec] at h2b
          simp only at h2b
          refine ⟨l2a ++ l2b, ?_, ?_⟩
          · simp only [extractLoop, hem, hrec]
            rw [h2b, h2a, List.append_assoc]
          · simp only [List.all_append, ha, hb, Bool.and_self]

theorem extract_log (env : ExtractEnv) (gn : String) (st : St) :
    ∃ l2, (Game.extract env gn st).1.log = st.log ++ l2
      ∧ l2.all Event.isInvokeTool = true := by
  obtain ⟨l2, h2, ha⟩ := extractLoop_log env gn st.config.data_folder
    st.config.mods st.disk st.log
  cases hrec : extractLoop env gn st.config.data_folder st.config.mods
      st.disk st.log with
  | mk trip err =>
    obtain ⟨mods2, d2, l3⟩ := trip
    rw [hrec] at h2
    simp only at h2
    exact ⟨l2, by simp [Game.extract, hrec, h2], ha⟩

theorem removeFold_log (idir : FsPath) :
    ∀ (rels : List FsPath) (d : Disk) (l : List Event),
    ∃ l2, ((rels.foldl
        (fun acc rel =>
          (remove_path acc.1 idir rel, acc.2 ++ [.removeFile (idir ++ rel)]))
        (d, l)).2 = l ++ l2)
      ∧ l2.all Event.isRemoveFile = true := by
  intro rels
  induction rels with
  | nil => intro d l; exact ⟨[], by simp, rfl⟩
  | cons r rs ih =>
    intro d l
    rw [List.foldl_cons]
    obtain ⟨l2, h2, ha⟩ := ih (remove_path d idir r)
      (l ++ [.removeFile (idir ++ r)])
    refine ⟨[.removeFile (idir ++ r)] ++ l2, ?_, ?_⟩
    · simpa [List.append_assoc] using h2
    · simp [ha, Event.isRemoveFile]

theorem undeployPart_log (gf : FsPath) (df : Option FsPath) (src : FsPath)
    (d : Disk) (l : List Event) :
    ∃ l2, (undeployPart gf df src d l).2 = l ++ l2
      ∧ l2.all Event.isRemoveFile = true := by
  cases hc : contains_data_folder d src df with
  | error e => exact ⟨[], by simp [undeployPart, hc], rfl⟩
  | ok cdf =>
    obtain ⟨l2, h2, ha⟩ := removeFold_log (install_dir gf df cdf)
      ((filesUnder d src).filterMap (fun e => diff_paths e.1 src)) d l
    exact ⟨l2, by simpa [undeployPart, hc] using h2, ha⟩

theorem undeployFold_log (gf : FsPath) (df : Option FsPath) :
    ∀ (srcs : List FsPath) (d : Disk) (l : List Event),
    ∃ l2, ((srcs.foldl
        (fun acc src => undeployPart gf df src acc.1 acc.2) (d, l)).2
        = l ++ l2)
      ∧ l2.all Event.isRemoveFile = true := by
  intro srcs
  induction srcs with
  | nil => intro d l; exact ⟨[], by simp, rfl⟩
  | cons s ss ih =>
    intro d l
    simp only [List.foldl_cons]
    obtain ⟨l2a, h2a, ha⟩ := undeployPart_log gf df s d l
    cases hup : undeployPart gf df s d l with
    | mk d2 l2 =>
      rw [hup] at h2a
      simp only at h2a
      obtain ⟨l2b, h2b, hb⟩ := ih d2 l2
      refine ⟨l2a ++ l2b, ?_, ?_⟩
      · rw [h2b, h2a, List.append_assoc]
      · simp only [List.all_append, ha, hb, Bool.and_self]

theorem undeploy_mod_log (gf : FsPath) (df : Option FsPath)
    (mm : ManagedMod) (d : Disk) (l : List Event) :
    ∃ l2, (undeploy_mod gf df mm d l).2 = l ++ l2
      ∧ l2.all Event.isRemoveFile = true := by
  unfold undeploy_mod
  exact undeployFold_log gf df mm.part_paths d l

theorem undeployModsFold_log (gf : FsPath) (df : Option FsPath) :
    ∀ (mods : List (String × ManagedMod)) (d : Disk) (l : List Event),
    ∃ l2, ((mods.foldl
        (fun acc e => undeploy_mod gf df e.2 acc.1 acc.2) (d, l)).2
        = l ++ l2)
      ∧ l2.all Event.isRemoveFile = true := by
  intro mods
  induction mods with
  | nil => intro d l; exact ⟨[], by simp, rfl⟩
  | cons a rest ih =>
    intro d l
    simp only [List.foldl_cons]
    obtain ⟨l2a, h2a, ha⟩ := undeploy_mod_log gf df a.2 d l
    cases hum : undeploy_mod gf df a.2 d l with
    | mk d2 l2 =>
      rw [hum] at h2a
      simp only at h2a
      obtain ⟨l2b, h2b, hb⟩ := ih d2 l2
      refine ⟨l2a ++ l2b, ?_, ?_⟩
      · rw [h2b, h2a, List.append_assoc]
      · simp only [List.all_append, ha, hb, Bool.and_self]

theorem undeploy_log (st : St) :
    ∃ l2, (Game.undeploy st).log = st.log ++ l2
      ∧ l2.all Event.isRemoveFile = true := by
  obtain ⟨l2, h2, ha⟩ := undeployModsFold_log st.config.game_folder
    st.config.data_folder st.config.mods st.disk st.log
  exact ⟨l2, by simpa [Game.undeploy] using h2, ha⟩

theorem linkFold_log (method : DeploymentMethod) (install_src idir : FsPath) :
    ∀ (rels : List FsPath) (d : Disk) (l : List Event),
    ∃ l2, ((rels.foldl
        (fun acc rel =>
          let src := install_src ++ rel
          let dst := idir ++ rel
          let d2 :=
            match method with
            | .Hardlink => hard_link acc.1 src dst
            | .Symlink => hard_link acc.1 src dst
          (d2, acc.2 ++ [.link src dst]))
        (d, l)).2 = l ++ l2)
      ∧ l2.all Event.isLink = true := by
  intro rels
  induction rels with
  | nil => intro d l; exact ⟨[], by simp, rfl⟩
  | cons r rs ih =>
    intro d l
    simp only [List.foldl_cons]
    obtain ⟨l2, h2, ha⟩ := ih
      (match method with
        | .Hardlink => hard_link d (install_src ++ r) (idir ++ r)
        | .Symlink => hard_link d (install_src ++ r) (idir ++ r))
      (l ++ [.link (install_src ++ r) (idir ++ r)])
    refine ⟨[.link (install_src ++ r) (idir ++ r)] ++ l2, ?_, ?_⟩
    · cases method <;> simpa [List.append_assoc] using h2
    · simp [ha, Event.isLink]

theorem deployPart_log (gf : FsPath) (df : Option FsPath)
    (method : DeploymentMethod) (src : FsPath) (d : Disk) (l : List Event) :
    ∃ l2, (deployPart gf df method src d l).1.2 = l ++ l2
      ∧ l2.all Event.isLink = true := by
  cases hc : contains_data_folder d src df with
  | error e => exact ⟨[], by simp [deployPart, hc], rfl⟩
  | ok cdf =>
    obtain ⟨l2, h2, ha⟩ := linkFold_log method src (install_dir gf df cdf)
      ((filesUnder d src).filterMap (fun e => diff_paths e.1 src)) d l
    exact ⟨l2, by simpa [deployPart, hc] using h2, ha⟩

theorem deployPartsLoop_log (gf : FsPath) (df : Option FsPath)
    (method : DeploymentMethod) :
    ∀ (folders : List FsPath) (d : Disk) (l : List Event),
    ∃ l2, (deployPartsLoop gf df method folders d l).1.2 = l ++ l2
      ∧ l2.all Event.isLink = true := by
  intro folders
  induction folders with
  | nil => intro d l; exact ⟨[], by simp [deployPartsLoop], rfl⟩
  | cons f fs ih =>
    intro d l
    obtain ⟨l2a, h2a, ha⟩ := deployPart_log gf df method f d l
    cases hdp : deployPart gf df method f d l with
    | mk acc err =>
      obtain ⟨d2, l2⟩ := acc
      rw [hdp] at h2a
      simp only at h2a
      cases err with
      | some e => exact ⟨l2a, by simp [deployPartsLoop, hdp, h2a], ha⟩
      | none =>
        obtain ⟨l2b, h2b, hb⟩ := ih d2 l2
        refine ⟨l2a ++ l2b, ?_, ?_⟩
        · simp only [deployPartsLoop, hdp]
          rw [h2b, h2a, List.append_assoc]
        · simp only [List.all_append, ha, hb, Bool.and_self]

theorem deployModEntry_log (env : ExtractEnv) (gf : FsPath)
    (df : Option FsPath) (method : DeploymentMethod) (n : String)
    (mm : ManagedMod) (d : Disk) (l : List Event) :
    ∃ l2, (deployModEntry env gf df method n mm d l).1.2.2 = l ++ l2
      ∧ l2.all Event.isLink = true := by
  cases he : mm.extracted with
  | none => exact ⟨[], by simp [deployModEntry, he], rfl⟩
  | some edir =>
    cases hen : mm.enabled with
    | false => exact ⟨[], by simp [deployModEntry, he, hen], rfl⟩
    | true =>
      cases hres : resolve_install_folders env d n mm edir with
      | error e => exact ⟨[], by simp [deployModEntry, he, hen, hres], rfl⟩
      | ok fm =>
        obtain ⟨l2, h2, ha⟩ := deployPartsLoop_log gf df method fm.1 d l
        cases hdl : deployPartsLoop gf df method fm.1 d l with
        | mk acc err =>
          rw [hdl] at h2
          simp only at h2
          exact ⟨l2, by simp [deployModEntry, he, hen, hres, hdl, h2], ha⟩

theorem deployLoop_log (env : ExtractEnv) (gf : FsPath)
    (df : Option FsPath) (method : DeploymentMethod) :
    ∀ (mods : List (String × ManagedMod)) (d : Disk) (l : List Event),
    ∃ l2, (deployLoop env gf df method mods d l).1.2.2 = l ++ l2
      ∧ l2.all Event.isLink = true := by
  intro mods
  induction mods with
  | nil => intro d l; exact ⟨[], by simp [deployLoop], rfl⟩
  | cons a rest ih =>
    intro d l
    obtain ⟨l2a, h2a, ha⟩ := deployModEntry_log env gf df method a.1 a.2 d l
    cases hde : deployModEntry env gf df method a.1 a.2 d l with
    | mk trip err =>
      obtain ⟨mm2, d2, l2⟩ := trip
      rw [hde] at h2a
      simp only at h2a
      cases err with
      | some e => exact ⟨l2a, by simp [deployLoop, hde, h2a], ha⟩
      | none =>
        obtain ⟨l2b, h2b, hb⟩ := ih d2 l2
        cases hrec : deployLoop env gf df method rest d2 l2 with
        | mk trip2 err2 =>
          obtain ⟨rest2, d3, l3⟩ := trip2
          rw [hrec] at h2b
          simp only at h2b
          refine ⟨l2a ++ l2b, ?_, ?_⟩
          · simp only [deployLoop, hde, hrec]
            rw [h2b, h2a, List.append_assoc]
          · simp only [List.all_append, ha, hb, Bool.and_self]

theorem deploy_log (env : ExtractEnv) (st : St) :
    ∃ l2, ((Game.deploy env st).1).log = st.log ++ l2
      ∧ l2.all Event.isLink = true := by
  obtain ⟨l2, h2, ha⟩ := deployLoop_log env st.config.game_folder
    st.config.data_folder st.config.deployment st.config.mods st.disk st.log
  cases hrec : deployLoop env st.config.game_folder st.config.data_folder
      st.config.deployment st.config.mods st.disk st.log with
  | mk trip err =>
    obtain ⟨mods2, d2, l3⟩ := trip
    rw [hrec] at h2
    simp only at h2
    exact ⟨l2, by simp [Game.deploy, hrec, h2], ha⟩

theorem write_plugins_log (st : St) :
    ∃ l2, (Game.write_plugins st).log = st.log ++ l2
      ∧ l2.all Event.isWritePlugins = true := by
  cases ht : st.config.plugins_file with
  | none => exact ⟨[], by simp [Game.write_plugins, ht], rfl⟩
  | some target =>
    refine ⟨[.writePluginsFile target (String.join
      ((Game.plugins st.config st.disk).map (fun n => "*" ++ n ++ "\n")))],
      by simp [Game.write_plugins, ht], rfl⟩

/-! ## Claims -/

/-- Claim C9: mod-name resolution matches the selector as a
case-insensitive substring of registry keys; zero matches fail with an
unknown-mod error (carrying the lowercased selector), and with several
matches the first matching entry in registry order is silently returned
(no ambiguity error). -/
theorem get_mod_resolution :
    (∀ (mods : List (String × ManagedMod)) (name : String),
      (∀ e ∈ mods, strContainsSub (strToLower e.1) (strToLower name) = false) →
      get_mod mods name = .error (.UnknownMod (strToLower name)))
    ∧ (∀ (pre post : List (String × ManagedMod)) (e : String × ManagedMod)
        (name : String),
      (∀ x ∈ pre, strContainsSub (strToLower x.1) (strToLower name) = false) →
      strContainsSub (strToLower e.1) (strToLower name) = true →
      get_mod (pre ++ e :: post) name = .ok e) := by
  constructor
  · intro mods name h
    unfold get_mod
    have hnone : mods.find?
        (fun e => strContainsSub (strToLower e.1) (strToLower name)) = none := by
      rw [List.find?_eq_none]
      intro x hx
      simp [h x hx]
    simp [hnone]
  · intro pre post e name hpre he
    unfold get_mod
    have h1 : pre.find?
        (fun x => strContainsSub (strToLower x.1) (strToLower name)) = none := by
      rw [List.find?_eq_none]
      intro x hx
      simp [hpre x hx]
    have h2 : (pre ++ e :: post).find?
        (fun x => strContainsSub (strToLower x.1) (strToLower name))
          = some e := by
      rw [List.find?_append, h1]
      simp [List.find?_cons_of_pos, he]
    simp [h2]

/-- Witness for C9: on the registry `[SkyUI, SkyUI_extra]` the ambiguous
selector `skyui` matches both keys and resolves to the first, and an
unmatched selector fails with the unknown-mod error. -/
theorem get_mod_resolution_witness :
    get_mod [("SkyUI", ({} : ManagedMod)), ("SkyUI_extra", {})] "skyui"
      = .ok ("SkyUI", ({} : ManagedMod))
    ∧ get_mod [("SkyUI", ({} : ManagedMod)), ("SkyUI_extra", {})] "zzz"
      = .error (.UnknownMod "zzz") :=
  ⟨get_mod_resolution.2 [] [("SkyUI_extra", {})] ("SkyUI", {}) "skyui"
      (by simp) (by decide),
   get_mod_resolution.1 [("SkyUI", {}), ("SkyUI_extra", {})] "zzz"
      (by decide)⟩

/-- Claim C6: `move_mod` is atomic with respect to the in-memory
registry: whenever it returns an error (unknown moved selector, unknown
target selector, or a self-relative Above/Below move), the registry is
returned completely unchanged. -/
theorem move_mod_atomic :
    ∀ (mods : List (String × ManagedMod)) (moved : String)
      (dest : MoveSubcommand) (e : Error),
      (move_mod mods moved dest).2 = some e →
      (move_mod mods moved dest).1 = mods := by
  intro mods moved dest e h
  unfold move_mod at h ⊢
  cases hg : get_mod mods moved with
  | error e1 => simp [hg]
  | ok mr =>
    simp only [hg] at h ⊢
    cases dest with
    | Above other =>
      cases hg2 : get_mod mods other with
      | error e2 => simp [hg2]
      | ok or2 =>
        simp only [hg2] at h ⊢
        by_cases heq : (mr.1 == or2.1) = true
        · simp [heq]
        · simp only [Bool.not_eq_true] at heq
          simp [heq] at h
    | Below other =>
      cases hg2 : get_mod mods other with
      | error e2 => simp [hg2]
      | ok or2 =>
        simp only [hg2] at h ⊢
        by_cases heq : (mr.1 == or2.1) = true
        · simp [heq]
        · simp only [Bool.not_eq_true] at heq
          simp [heq] at h
    | Top =>
      cases hf : mods.find? (fun x => x.1 == mr.1) with
      | none => simp [hf]
      | some me => simp [hf] at h
    | Bottom =>
      cases hf : mods.find? (fun x => x.1 == mr.1) with
      | none => simp [hf]
      | some me => simp [hf] at h

/-- Witness for C6: the self-relative move `move(A, Above(A))` on
`[A, B, C]` errors and leaves the registry unchanged. -/
theorem move_mod_atomic_witness :
    (move_mod [("A", ({} : ManagedMod)), ("B", {}), ("C", {})] "A"
      (.Above "A")).1 = [("A", ({} : ManagedMod)), ("B", {}), ("C", {})] :=
  move_mod_atomic [("A", {}), ("B", {}), ("C", {})] "A" (.Above "A")
    (.SelfRelativeMove "A") (by decide)

/-- Claim C5: `move_mod` removes the moved entry and reinserts it
immediately before (Above) or after (Below) the other entry's position as
recomputed after removal, Top inserts at index 0 and Bottom appends; and
concretely on `[A, B, C]`, `move(C, Above(A))` yields `[C, A, B]` and
`move(A, Bottom)` yields `[B, C, A]`, with all associated mod data
unchanged. -/
theorem move_mod_semantics :
    (∀ x y z : ManagedMod,
      move_mod [("A", x), ("B", y), ("C", z)] "C" (.Above "A")
        = ([("C", z), ("A", x), ("B", y)], none))
    ∧ (∀ x y z : ManagedMod,
      move_mod [("A", x), ("B", y), ("C", z)] "A" .Bottom
        = ([("B", y), ("C", z), ("A", x)], none))
    ∧ (∀ (mods : List (String × ManagedMod)) (moved : String)
        (me : String × ManagedMod), (mods.map Prod.fst).Nodup →
        get_mod mods moved = .ok me →
        move_mod mods moved .Top = (me :: shift_remove mods me.1, none)
        ∧ move_mod mods moved .Bottom
            = (shift_remove mods me.1 ++ [me], none))
    ∧ (∀ (mods : List (String × ManagedMod)) (moved other : String)
        (me oe : String × ManagedMod), (mods.map Prod.fst).Nodup →
        get_mod mods moved = .ok me → get_mod mods other = .ok oe →
        me.1 ≠ oe.1 →
        ∃ j, (shift_remove mods me.1).findIdx? (fun x => x.1 == oe.1)
            = some j
          ∧ (shift_remove mods me.1).get? j = some oe
          ∧ move_mod mods moved (.Above other)
              = ((shift_remove mods me.1).take j ++ me ::
                  (shift_remove mods me.1).drop j, none)
          ∧ move_mod mods moved (.Below other)
              = ((shift_remove mods me.1).take (j + 1) ++ me ::
                  (shift_remove mods me.1).drop (j + 1), none)) :=
  ⟨fun _ _ _ => rfl, fun _ _ _ => rfl,
   fun _ _ _ hnd hm => move_sem_top hnd hm,
   fun _ _ _ _ _ hnd hm ho hne => move_sem_rel hnd hm ho hne⟩

/-- Witness for C5: the general Top semantics applied to the concrete
registry `[A, B, C]` moving `B` to the top. -/
theorem move_mod_semantics_witness :
    move_mod [("A", ({} : ManagedMod)), ("B", {}), ("C", {})] "B" .Top
      = ([("B", ({} : ManagedMod)), ("A", {}), ("C", {})], none) :=
  (move_mod_semantics.2.2.1 [("A", {}), ("B", {}), ("C", {})] "B"
    ("B", {}) (by decide) rfl).1

/-- Claim C8: extraction is idempotent: for a mod whose extracted field
is already set, `extract_mod` is a no-op (the external tool is not
invoked, and mod, disk and log are unchanged); and any successful
`extract_mod` run is idempotent, so running it twice without clearing the
state invokes the tool at most once. -/
theorem extract_mod_idempotent :
    (∀ (env : ExtractEnv) (gn : String) (df : Option FsPath) (n : String)
      (mm : ManagedMod) (d : Disk) (l : List Event) (e0 : FsPath),
      mm.extracted = some e0 →
      extract_mod env gn df n mm d l = ((mm, d, l), none))
    ∧ (∀ (env : ExtractEnv) (gn : String) (df : Option FsPath) (n : String)
      (mm : ManagedMod) (d : Disk) (l : List Event)
      (out : ManagedMod × Disk × List Event),
      extract_mod env gn df n mm d l = (out, none) →
      extract_mod env gn df n out.1 out.2.1 out.2.2 = (out, none)) := by
  constructor
  · intro env gn df n mm d l e0 h
    simp [extract_mod, h]
  · intro env gn df n mm d l out h
    by_cases hg : (mm.enabled && mm.extracted.isNone) = true
    · rw [extract_mod, if_pos hg] at h
      cases hz : env.sevenZip n mm.archive with
      | none => simp [hz] at h
      | some files =>
        simp only [hz] at h
        cases hh : hoistSingleDir
            (remove_dir_all d (extracted_dir gn n)
              ++ files.map (fun f => (extracted_dir gn n ++ f.1, f.2)))
            (extracted_dir gn n) df with
        | error e => simp [hh] at h
        | ok d3 =>
          simp only [hh, Prod.mk.injEq] at h
          have hout := h.1.symm
          subst hout
          simp [extract_mod]
    · rw [extract_mod, if_neg hg] at h
      have hout := (Prod.mk.injEq _ _ _ _ ▸ h).1.symm
      subst hout
      rw [extract_mod, if_neg hg]

/-- Witness for C8: a mod with extracted already set is untouched by
`extract_mod`. -/
theorem extract_mod_idempotent_witness :
    extract_mod
      { sevenZip := fun _ _ => none, fomodChoice := fun _ _ => .error .ioErr }
      "g" none "A"
      { enabled := true, extracted := some ["e"], archive := [], parts := [] }
      [] []
      = (({ enabled := true, extracted := some ["e"], archive := [],
            parts := [] }, [], []), none) :=
  extract_mod_idempotent.1 _ "g" none "A" _ [] [] ["e"] rfl

/-- Claim C10: a mod with no recorded parts and no extracted tree
contributes no files in any phase: `part_paths` is empty, undeploy
leaves disk and log unchanged, the plugin scan collects nothing from it,
and the install phase skips it entirely, all without error. -/
theorem never_extracted_contributes_nothing :
    ∀ (mm : ManagedMod), mm.parts = [] → mm.extracted = none →
      mm.part_paths = []
      ∧ (∀ (gf : FsPath) (df : Option FsPath) (d : Disk) (l : List Event),
          undeploy_mod gf df mm d l = (d, l))
      ∧ (∀ d : Disk, pluginsOfMod d mm = [])
      ∧ (∀ (env : ExtractEnv) (gf : FsPath) (df : Option FsPath)
          (method : DeploymentMethod) (n : String) (d : Disk)
          (l : List Event),
          deployModEntry env gf df method n mm d l = ((mm, d, l), none)) := by
  intro mm hp he
  have hpp : mm.part_paths = [] := by
    simp [ManagedMod.part_paths, hp, he]
  refine ⟨hpp, ?_, ?_, ?_⟩
  · intro gf df d l
    simp [undeploy_mod, hpp]
  · intro d
    simp [pluginsOfMod, hpp]
  · intro env gf df method n d l
    simp [deployModEntry, he]

/-- Witness for C10: the default (never-extracted, partless) mod, even
when enabled, contributes nothing anywhere. -/
theorem never_extracted_contributes_nothing_witness :
    ({ enabled := true } : ManagedMod).part_paths = []
    ∧ undeploy_mod ["game"] none { enabled := true }
        [(["game", "z"], "q")] [] = ([(["game", "z"], "q")], [])
    ∧ pluginsOfMod [(["game", "z.esp"], "q")] { enabled := true } = [] :=
  have h := never_extracted_contributes_nothing { enabled := true } rfl rfl
  ⟨h.1, h.2.1 ["game"] none [(["game", "z"], "q")] [],
   h.2.2.1 [(["game", "z.esp"], "q")]⟩

theorem resolve_recorded_parts (env : ExtractEnv) (d : Disk) (n : String)
    (mm : ManagedMod) (edir : FsPath) (h : mm.parts ≠ []) :
    resolve_install_folders env d n mm edir = .ok (mm.parts, mm) := by
  simp [resolve_install_folders, List.isEmpty_iff, h]

theorem deployModEntry_preserves_mod (env : ExtractEnv) (gf : FsPath)
    (df : Option FsPath) (method : DeploymentMethod) (n : String)
    (mm : ManagedMod) (d : Disk) (l : List Event) (h : mm.parts ≠ []) :
    (deployModEntry env gf df method n mm d l).1.1 = mm := by
  unfold deployModEntry
  cases he : mm.extracted with
  | none => rfl
  | some edir =>
    cases hen : mm.enabled with
    | false => rfl
    | true =>
      simp only [resolve_recorded_parts env d n mm edir h]

theorem deployLoop_preserves_nonempty_parts
    (env : ExtractEnv) (gf : FsPath) (df : Option FsPath)
    (method : DeploymentMethod) :
    ∀ (mods : List (String × ManagedMod)) (d : Disk) (l : List Event)
      (i : Nat) (n : String) (mm : ManagedMod),
      mods.get? i = some (n, mm) → mm.parts ≠ [] →
      (deployLoop env gf df method mods d l).1.1.get? i = some (n, mm) := by
  intro mods
  induction mods with
  | nil => intro d l i n mm hi _; simp at hi
  | cons a rest ih =>
    intro d l i n mm hi hne
    cases hde : deployModEntry env gf df method a.1 a.2 d l with
    | mk trip err =>
      obtain ⟨mm2, d2, l2⟩ := trip
      have hmm2 : i = 0 → mm2 = a.2 := by
        intro hi0
        subst hi0
        simp only [List.get?_cons_zero, Option.some.injEq] at hi
        have hp := deployModEntry_preserves_mod env gf df method a.1 a.2
          d l ((congrArg Prod.snd hi) ▸ hne)
        rw [hde] at hp
        exact hp
      cases err with
      | some e =>
        simp only [deployLoop, hde]
        cases i with
        | zero =>
          simp only [List.get?_cons_zero, Option.some.injEq] at hi ⊢
          rw [hmm2 rfl]
          exact hi
        | succ i2 =>
          simpa using hi
      | none =>
        simp only [deployLoop, hde]
        cases hrec : deployLoop env gf df method rest d2 l2 with
        | mk trip2 err2 =>
          obtain ⟨rest2, d3, l3⟩ := trip2
          simp only [hrec]
          cases i with
          | zero =>
            simp only [List.get?_cons_zero, Option.some.injEq] at hi ⊢
            rw [hmm2 rfl]
            exact hi
          | succ i2 =>
            simp only [List.get?_cons_succ] at hi ⊢
            have hih := ih d2 l2 i2 n mm hi hne
            rw [hrec] at hih
            simpa using hih

/-- Claim C7: part resolution is sticky: a mod whose parts list is
non-empty has exactly that recorded list used as its install roots and is
left completely unmodified by a deploy pass; and a mod's parts only ever
changes when it was empty and an installer descriptor was detected, in
which case it becomes the external selection, recorded once. -/
theorem parts_resolution_sticky :
    (∀ (env : ExtractEnv) (d : Disk) (n : String) (mm : ManagedMod)
      (edir : FsPath), mm.parts ≠ [] →
      resolve_install_folders env d n mm edir = .ok (mm.parts, mm))
    ∧ (∀ (env : ExtractEnv) (st : St) (i : Nat) (n : String)
        (mm : ManagedMod),
      st.config.mods.get? i = some (n, mm) → mm.parts ≠ [] →
      ((Game.deploy env st).1).config.mods.get? i = some (n, mm))
    ∧ (∀ (env : ExtractEnv) (d : Disk) (n : String) (mm : ManagedMod)
        (edir : FsPath) (folders : List FsPath) (mm2 : ManagedMod),
      mm.parts = [] →
      resolve_install_folders env d n mm edir = .ok (folders, mm2) →
      mm2 ≠ mm →
      (findModuleConfig d edir).isSome = true
      ∧ env.fomodChoice n edir = .ok folders
      ∧ mm2 = { mm with parts := folders }) := by
  refine ⟨fun env d n mm edir h => resolve_recorded_parts env d n mm edir h,
    ?_, ?_⟩
  · intro env st i n mm hi hne
    unfold Game.deploy
    cases hrec : deployLoop env st.config.game_folder st.config.data_folder
        st.config.deployment st.config.mods st.disk st.log with
    | mk trip err =>
      obtain ⟨mods2, d2, l2⟩ := trip
      have hp := deployLoop_preserves_nonempty_parts env
        st.config.game_folder st.config.data_folder st.config.deployment
        st.config.mods st.disk st.log i n mm hi hne
      rw [hrec] at hp
      simpa using hp
  · intro env d n mm edir folders mm2 hp hres hne
    unfold resolve_install_folders at hres
    simp only [hp, List.isEmpty_nil, Bool.not_true, Bool.false_eq_true,
      if_false] at hres
    by_cases hfind : (findModuleConfig d edir).isSome = true
    · simp only [hfind, if_true] at hres
      cases hf : env.fomodChoice n edir with
      | error e => rw [hf] at hres; cases hres
      | ok paths =>
        rw [hf] at hres
        simp only [Except.ok.injEq, Prod.mk.injEq] at hres
        refine ⟨hfind, ?_, ?_⟩
        · rw [hres.1]
        · rw [← hres.2, hres.1]
    · simp only [Bool.not_eq_true] at hfind
      simp only [hfind, Bool.false_eq_true, if_false, Except.ok.injEq,
        Prod.mk.injEq] at hres
      exact absurd hres.2.symm hne

/-- Witness for C7: a deploy pass leaves a recorded single-part mod's
registry entry untouched, parts included. -/
theorem parts_resolution_sticky_witness :
    ((Game.deploy envNoTool stSticky).1).config.mods.get? 0
      = some ("A", stickyMod) :=
  parts_resolution_sticky.2.1 envNoTool stSticky 0 "A" stickyMod rfl
    (by decide)

set_option maxHeartbeats 2000000

/-- Claim C1 (corrected): for two enabled mods A then B in registry
order both producing a file at the same destination path, the EARLIER mod
(A) wins: link creation at an existing destination fails and the failure
is swallowed, so the install phase never overwrites an existing file.
First conjunct: deploy never changes the content of any file already on
disk.  Second conjunct: in the concrete two-mod collision schema the file
at the shared path holds A's content after a full pass, for all
contents. -/
theorem deploy_collision_earlier_wins :
    (∀ (env : ExtractEnv) (st : St) (p : FsPath) (c : Content),
      Disk.lookup st.disk p = some c →
      Disk.lookup ((Game.deploy env st).1).disk p = some c)
    ∧ (∀ a b : Content,
      Disk.lookup ((Game.go envNoTool "g" (stCollision a b)).1).disk
        (["game"] ++ p0) = some a) :=
  ⟨deploy_preserves_disk, fun _a _b => rfl⟩

/-- Counterexample to C1 as stated: in the collision scenario with A's
content "contentA" and B's content "contentB", the file at the shared
path resolves to A's content after one deploy pass, not B's as the claim
asserts. -/
theorem deploy_collision_cex :
    Disk.lookup
      ((Game.go envNoTool "g" (stCollision "contentA" "contentB")).1).disk
      (["game"] ++ p0) = some "contentA"
    ∧ Disk.lookup
      ((Game.go envNoTool "g" (stCollision "contentA" "contentB")).1).disk
      (["game"] ++ p0) ≠ some "contentB" := by
  refine ⟨?_, ?_⟩ <;> decide

/-- Witness for C1: a pre-existing file under the game folder keeps its
content through deploy. -/
theorem deploy_collision_earlier_wins_witness :
    Disk.lookup ((Game.deploy envNoTool stPre).1).disk ["game", "pre.txt"]
      = some "keep" :=
  deploy_collision_earlier_wins.1 envNoTool stPre ["game", "pre.txt"] "keep"
    (by decide)

/-- Claim C2 (corrected): an extraction failure is NOT merely recorded
per-mod: `Game::extract` propagates the first failure with `?` and
`Game::go` runs it first, so the whole pass aborts immediately: mods
after the failing one are left untouched and no undeploy, install or
plugin-list write happens.  First conjunct: when extract fails, go
returns exactly extract's state and error.  Second conjunct: the
extraction loop stops at the first failing mod, leaving all later mods
exactly as they were. -/
theorem extraction_failure_aborts :
    (∀ (env : ExtractEnv) (gn : String) (st st2 : St) (e : Error),
      Game.extract env gn st = (st2, some e) →
      Game.go env gn st = (st2, some e))
    ∧ (∀ (env : ExtractEnv) (gn : String) (df : Option FsPath) (n : String)
        (mm : ManagedMod) (rest : List (String × ManagedMod)) (d : Disk)
        (l : List Event) (trip : ManagedMod × Disk × List Event) (e : Error),
      extract_mod env gn df n mm d l = (trip, some e) →
      extractLoop env gn df ((n, mm) :: rest) d l
        = (((n, trip.1) :: rest, trip.2.1, trip.2.2), some e)) := by
  constructor
  · intro env gn st st2 e h
    simp [Game.go, h]
  · intro env gn df n mm rest d l trip e h
    obtain ⟨mm2, d2, l2⟩ := trip
    simp [extractLoop, h]

/-- Counterexample to C2 as stated: with mods [M1, M2] and M1's
extraction failing, the pass aborts with the extraction error, the log
shows only the one tool invocation (nothing undeployed or installed),
and M2 was never extracted. -/
theorem extraction_failure_aborts_cex :
    (Game.go envFail1 "g" stM).2
      = some (.Extraction ["arch", "m1.7z"] (some 2))
    ∧ (Game.go envFail1 "g" stM).1.log = [.invokeTool "M1"]
    ∧ (Game.go envFail1 "g" stM).1.config.mods.get? 1 = some ("M2", modNew2) := by
  refine ⟨?_, ?_, ?_⟩ <;> decide

/-- Witness for C2: the aborted pass returns exactly the post-extract
state and the extraction error. -/
theorem extraction_failure_aborts_witness :
    Game.go envFail1 "g" stM
      = (stMfailed, some (.Extraction ["arch", "m1.7z"] (some 2))) :=
  extraction_failure_aborts.1 envFail1 "g" stM stMfailed
    (.Extraction ["arch", "m1.7z"] (some 2)) (by decide)

/-- Claim C3 (corrected): the plugin list does NOT deduplicate globally
by name: itertools' `dedup` only collapses runs of consecutive equal
names.  In the [X, Y] scenario the claimed output `*foo.esp\n*bar.esp\n`
arises exactly when Y's duplicate foo.esp is traversed before its
bar.esp (adjacent to X's foo.esp); when bar.esp intervenes, the
duplicate foo.esp reappears in the output. -/
theorem plugins_dedup_consecutive_only :
    Game.plugins cfgXYP diskSep = ["foo.esp", "bar.esp", "foo.esp"]
    ∧ Game.plugins cfgXYP diskAdj = ["foo.esp", "bar.esp"]
    ∧ (Game.write_plugins stAdj).disk.lookup ["plugins.txt"]
        = some "*foo.esp\n*bar.esp\n"
    ∧ (∀ (x : String) (l : List String),
        dedupConsecutive (x :: x :: l) = dedupConsecutive (x :: l))
    ∧ (∀ (x y : String) (l : List String), x ≠ y →
        dedupConsecutive (x :: y :: l) = x :: dedupConsecutive (y :: l)) := by
  refine ⟨by decide, by decide, by decide, ?_, ?_⟩
  · intro x l
    simp [dedupConsecutive]
  · intro x y l h
    simp [dedupConsecutive, h]

/-- Counterexample to C3 as stated: when Y's traversal yields bar.esp
before its duplicate foo.esp, the written plugin file is
`*foo.esp\n*bar.esp\n*foo.esp\n`, not the claimed
`*foo.esp\n*bar.esp\n`. -/
theorem plugins_dedup_consecutive_cex :
    (Game.write_plugins stSep).disk.lookup ["plugins.txt"]
      = some "*foo.esp\n*bar.esp\n*foo.esp\n"
    ∧ some "*foo.esp\n*bar.esp\n*foo.esp\n"
        ≠ (some "*foo.esp\n*bar.esp\n" : Option Content) := by
  refine ⟨?_, ?_⟩ <;> decide

/-- Witness for C3: the adjacent-duplicates equation of the theorem
applied at a concrete list. -/
theorem plugins_dedup_consecutive_only_witness :
    dedupConsecutive ["foo.esp", "foo.esp", "bar.esp"]
      = ["foo.esp", "bar.esp"] := by
  rw [plugins_dedup_consecutive_only.2.2.2.1 "foo.esp" ["bar.esp"]]
  decide

/-- Claim C4 (corrected): a deploy pass performs extraction FIRST, then
undeploy, then install, then the plugin-list write: the event log of
`Game::go` always decomposes, in order, into tool invocations, then file
removals, then link creations, then the plugin-file write. -/
theorem go_phase_sequence :
    ∀ (env : ExtractEnv) (gn : String) (st : St),
    ∃ l1 l2 l3 l4,
      (Game.go env gn st).1.log = st.log ++ l1 ++ l2 ++ l3 ++ l4
      ∧ l1.all Event.isInvokeTool = true
      ∧ l2.all Event.isRemoveFile = true
      ∧ l3.all Event.isLink = true
      ∧ l4.all Event.isWritePlugins = true := by
  intro env gn st
  obtain ⟨l1, h1, a1⟩ := extract_log env gn st
  cases hex : Game.extract env gn st with
  | mk st1 err1 =>
    rw [hex] at h1
    simp only at h1
    cases err1 with
    | some e =>
      refine ⟨l1, [], [], [], ?_, a1, rfl, rfl, rfl⟩
      simp [Game.go, hex, h1]
    | none =>
      obtain ⟨l2, h2, a2⟩ := undeploy_log st1
      obtain ⟨l3, h3, a3⟩ := deploy_log env (Game.undeploy st1)
      cases hdep : Game.deploy env (Game.undeploy st1) with
      | mk st3 err3 =>
        rw [hdep] at h3
        simp only at h3
        cases err3 with
        | some e =>
          refine ⟨l1, l2, l3, [], ?_, a1, a2, a3, rfl⟩
          simp [Game.go, hex, hdep, h3, h2, h1, List.append_assoc]
        | none =>
          obtain ⟨l4, h4, a4⟩ := write_plugins_log st3
          refine ⟨l1, l2, l3, l4, ?_, a1, a2, a3, a4⟩
          simp [Game.go, hex, hdep, h4, h3, h2, h1, List.append_assoc]

/-- Counterexample to C4 as stated (undeploy first, then extraction): in
the [A, B] scenario both undeploy removals and a tool invocation occur,
and the tool invocation (index 0) precedes a removal (index 1), so it is
false that every undeploy event precedes every extraction event. -/
theorem go_phase_sequence_cex :
    ¬ (∀ i j : Nat,
        i < ((Game.go envOkB "g" stAB).1.log).length →
        j < ((Game.go envOkB "g" stAB).1.log).length →
        Event.isRemoveFile
          (((Game.go envOkB "g" stAB).1.log).getD i (.invokeTool "")) = true →
        Event.isInvokeTool
          (((Game.go envOkB "g" stAB).1.log).getD j (.invokeTool "")) = true →
        i < j) := by
  intro hcl
  exact absurd (hcl 1 0 (by decide) (by decide) (by decide) (by decide))
    (by decide)

end Clim
